/-
Verification of the AgentMesh Cline CLI wrapper
(src/src/tools/generate-tests.ts, embedded cline module).

JS strings are modelled as `List Char`.  The three extraction regexes
(OUTPUT_REGEX.COMPLETION, OUTPUT_REGEX.PLAN_MODE, OUTPUT_REGEX.TEXT_RESPONSE)
are embedded as direct backtracking matchers with JavaScript semantics:
leftmost match, greedy and lazy single-character-class stars with
backtracking, and capture groups.
-/
import Mathlib

set_option maxRecDepth 100000
set_option autoImplicit false

/-- The character `\x7d` (closing curly brace), the one excluded by the
`[^...]` classes of COMPLETION and TEXT_RESPONSE. -/
def rbrace : Char := Char.ofNat 125

/-- A JavaScript line terminator (what `.` does not match without the s flag). -/
def isLineTerm (c : Char) : Bool :=
  c == '\n' || c == '\r' || c.val == 8232 || c.val == 8233

/-- The JavaScript regex `\s` character class (ECMAScript WhiteSpace and
LineTerminator code points). -/
def jsSpace (c : Char) : Bool :=
  c == ' ' || c == '\t' || c == '\n' || c == '\r' ||
  c.val == 11 || c.val == 12 || c.val == 160 || c.val == 5760 ||
  (8192 ≤ c.val && c.val ≤ 8202) || c.val == 8232 || c.val == 8233 ||
  c.val == 8239 || c.val == 8287 || c.val == 12288 || c.val == 65279

/-- Literal fragment of the regexes: the five characters of a quoted say key. -/
def litSay : List Char := ['"', 's', 'a', 'y', '"']

/-- Literal fragment: quoted completion_result. -/
def litCompletionResult : List Char :=
  ['"', 'c', 'o', 'm', 'p', 'l', 'e', 't', 'i', 'o', 'n', '_',
   'r', 'e', 's', 'u', 'l', 't', '"']

/-- Literal fragment: quoted text (used both as the say value and as the key). -/
def litTextKey : List Char := ['"', 't', 'e', 'x', 't', '"']

/-- Literal fragment: quoted response. -/
def litResponse : List Char := ['"', 'r', 'e', 's', 'p', 'o', 'n', 's', 'e', '"']

/-- Match a literal character sequence at the head of the input; return the
rest of the input on success. -/
def matchLit : List Char → List Char → Option (List Char)
  | [], s => some s
  | _ :: _, [] => none
  | l :: ls, c :: cs => if c == l then matchLit ls cs else none

/-- Greedy `\s*`: skip regex whitespace.  (In every use site the character
after `\s*` in the pattern is not itself `\s`, so greedy maximal munch is the
exact backtracking semantics.) -/
def skipWs (s : List Char) : List Char := s.dropWhile jsSpace

/-- The pattern fragment `\s*:\s*`. -/
def matchColon (s : List Char) : Option (List Char) :=
  match matchLit [':'] (skipWs s) with
  | some r => some (skipWs r)
  | none => none

/-- The pattern `"text"\s*:\s*"([^"]+)"` anchored at the head of the input,
returning the capture group.  This is the tail of OUTPUT_REGEX.COMPLETION
after `[^}]*`, and also the inner regex re-applied to each TEXT_RESPONSE
match (line 340 of the source). -/
def tryTextCapture (s : List Char) : Option (List Char) :=
  match matchLit litTextKey s with
  | none => none
  | some s1 =>
    match matchColon s1 with
    | none => none
    | some s2 =>
      match matchLit ['"'] s2 with
      | none => none
      | some s3 =>
        match s3.dropWhile (fun c => c != '"') with
        | [] => none
        | c :: _ =>
          if (s3.takeWhile (fun c => c != '"')).isEmpty then none
          else if c == '"' then some (s3.takeWhile (fun c => c != '"')) else none

/-- Same pattern as `tryTextCapture` but returning the input remaining after
the closing quote (used to delimit a full TEXT_RESPONSE match). -/
def tryTextTail (s : List Char) : Option (List Char) :=
  match matchLit litTextKey s with
  | none => none
  | some s1 =>
    match matchColon s1 with
    | none => none
    | some s2 =>
      match matchLit ['"'] s2 with
      | none => none
      | some s3 =>
        match s3.dropWhile (fun c => c != '"') with
        | [] => none
        | c :: r =>
          if (s3.takeWhile (fun c => c != '"')).isEmpty then none
          else if c == '"' then some r else none

/-- Greedy `cls*` followed by `tail`, with backtracking: prefer consuming as
many `cls` characters as possible, then retry `tail` at earlier positions. -/
def greedy {α : Type} (cls : Char → Bool) (tail : List Char → Option α) :
    List Char → Option α
  | [] => tail []
  | c :: cs =>
    if cls c then (greedy cls tail cs).orElse (fun _ => tail (c :: cs))
    else tail (c :: cs)

/-- Lazy `cls*?` followed by `tail`: prefer trying `tail` as early as
possible, consuming a `cls` character only on failure. -/
def lazyStar {α : Type} (cls : Char → Bool) (tail : List Char → Option α) :
    List Char → Option α
  | [] => tail []
  | c :: cs =>
    (tail (c :: cs)).orElse
      (fun _ => if cls c then lazyStar cls tail cs else none)

/-- Leftmost match: try the matcher at every start position, left to right. -/
def scanFirst {α : Type} (f : List Char → Option α) : List Char → Option α
  | [] => f []
  | c :: cs => (f (c :: cs)).orElse (fun _ => scanFirst f cs)

/-- OUTPUT_REGEX.COMPLETION anchored at the head of the input:
`"say"\s*:\s*"completion_result"[^}]*"text"\s*:\s*"([^"]+)"`,
returning the capture group. -/
def tryCompletion (s : List Char) : Option (List Char) :=
  match matchLit litSay s with
  | none => none
  | some s1 =>
    match matchColon s1 with
    | none => none
    | some s2 =>
      match matchLit litCompletionResult s2 with
      | none => none
      | some s3 => greedy (fun c => c != rbrace) tryTextCapture s3

/-- The deterministic run of `(?:[^"\\]|\.)*` (the PLAN_MODE body): each step
consumes either one character that is neither a quote nor a backslash, or a
backslash plus any non-line-terminator character.  Both branches are mutually
exclusive and the star can only stop where neither applies, so backtracking
cannot produce any other outcome.  Returns (consumed, rest). -/
def escRun : List Char → List Char × List Char
  | [] => ([], [])
  | c :: cs =>
    if c == '"' then ([], c :: cs)
    else if c == '\\' then
      match cs with
      | [] => ([], [c])
      | d :: ds =>
        if isLineTerm d then ([], c :: d :: ds)
        else
          let p := escRun ds
          (c :: d :: p.1, p.2)
    else
      let p := escRun cs
      (c :: p.1, p.2)

/-- OUTPUT_REGEX.PLAN_MODE anchored at the head of the input:
quoted response key, colon, then a quoted body of class-or-escape pairs
(the source regex on line 91), returning the capture group. -/
def tryPlan (s : List Char) : Option (List Char) :=
  match matchLit litResponse s with
  | none => none
  | some s1 =>
    match matchColon s1 with
    | none => none
    | some s2 =>
      match matchLit ['"'] s2 with
      | none => none
      | some s3 =>
        match escRun s3 with
        | (cap, c :: _) => if c == '"' then some cap else none
        | (_, []) => none

/-- OUTPUT_REGEX.TEXT_RESPONSE anchored at the head of the input:
`"say"\s*:\s*"text"[^}]*?"text"\s*:\s*"([^"]+)"` (lazy middle), returning
(full match, rest after the match). -/
def tryTextAt (s : List Char) : Option (List Char × List Char) :=
  match matchLit litSay s with
  | none => none
  | some s1 =>
    match matchColon s1 with
    | none => none
    | some s2 =>
      match matchLit litTextKey s2 with
      | none => none
      | some s3 =>
        match lazyStar (fun c => c != rbrace) tryTextTail s3 with
        | none => none
        | some rest => some (s.take (s.length - rest.length), rest)

/-- Global (g-flag) scan for TEXT_RESPONSE: collect non-overlapping matches
left to right, resuming after each match.  Fuel-indexed; every step consumes
at least one input character, so `length + 1` fuel (see `globalScan`) is
always sufficient (`globalScanAux_fuel`). -/
def globalScanAux : Nat → List Char → List (List Char)
  | 0, _ => []
  | _ + 1, [] => []
  | n + 1, c :: cs =>
    match tryTextAt (c :: cs) with
    | some (m, rest) => m :: globalScanAux n rest
    | none => globalScanAux n cs

/-- The global match call on TEXT_RESPONSE: the list of full matches. -/
def globalScan (s : List Char) : List (List Char) :=
  globalScanAux (s.length + 1) s

/-- Line 340-341: re-apply `"text"\s*:\s*"([^"]+)"` to a full match and take
the capture, or the empty string when it does not match. -/
def textFieldOf (m : List Char) : List Char :=
  match scanFirst tryTextCapture m with
  | some cap => cap
  | none => []

/-- One pass of `.replace(/\\x/g, r)` for a two-character escape `\x`:
left-to-right, non-overlapping. -/
def replEsc (target : Char) (repl : Char) : List Char → List Char
  | [] => []
  | [c] => [c]
  | c :: d :: ds =>
    if c == '\\' && d == target then repl :: replEsc target repl ds
    else c :: replEsc target repl (d :: ds)

/-- The backslash unescape pass: collapse doubled backslashes, left to
right, as the third replace of the plan branch (line 333). -/
def replBB : List Char → List Char
  | [] => []
  | [c] => [c]
  | c :: d :: ds =>
    if c == '\\' && d == '\\' then '\\' :: replBB ds
    else c :: replBB (d :: ds)

/-- The newline-then-quote unescape passes (lines 328, 345). -/
def unescapeNQ (s : List Char) : List Char :=
  replEsc '"' '"' (replEsc 'n' '\n' s)

/-- Stable insertion (descending by length): models the comparator
`(a, b) => b.length - a.length` under the ECMAScript stable-sort guarantee. -/
def insertDesc (x : List Char) : List (List Char) → List (List Char)
  | [] => [x]
  | y :: ys => if x.length ≥ y.length then x :: y :: ys else y :: insertDesc x ys

/-- Stable sort, descending by length. -/
def sortDesc : List (List Char) → List (List Char)
  | [] => []
  | x :: xs => insertDesc x (sortDesc xs)

/-- Lines 342-344: keep the texts longer than 50 characters and take the
first element of the descending sort (the longest, earliest on ties). -/
def pickLongest (texts : List (List Char)) : Option (List Char) :=
  match sortDesc (texts.filter (fun t => 50 < t.length)) with
  | [] => none
  | t :: _ => some t

/-- The default output `"Task completed (no output)"` (line 321). -/
def defaultOutput : List Char :=
  ("Task completed (no output)").toList

/-- Lines 320-353: the output extractor of runClineTask.  `base` models
`stdout || "Task completed (no output)"`; the three tiers follow the source.
The catch-block truncation (line 352) is unreachable because every operation
in the try block is total. -/
def extractOutput (stdout : List Char) : List Char :=
  let base := if stdout.isEmpty then defaultOutput else stdout
  match scanFirst tryCompletion stdout with
  | some cap => unescapeNQ cap
  | none =>
    match scanFirst tryPlan stdout with
    | some cap => replBB (unescapeNQ cap)
    | none =>
      let ms := globalScan stdout
      if ms.isEmpty then base
      else
        match pickLongest (ms.map textFieldOf) with
        | some t => unescapeNQ t
        | none => base

/-- The truncation the spec claims for the no-match case (line 352 of the
source, reachable only from the catch): first 2000 characters plus a marker
when longer. -/
def truncFallback (stdout : List Char) : List Char :=
  stdout.take 2000 ++ (if 2000 < stdout.length then ['.', '.', '.'] else [])

/-! ## The runner: environment, sanitization, path resolution, invocation -/

/-- Outcome of the one `execa` invocation: normal exit (stdout, stderr), or a
rejected promise (non-zero exit, spawn failure, or timeout) carrying the
error message and any captured partial streams. -/
inductive ExecOutcome : Type where
  | ok (stdout stderr : List Char)
  | fail (message stdout stderr : List Char)
deriving DecidableEq, Repr

/-- The process environment and the behaviour of the OS primitives the
wrapper touches: the CLINE_PATH, HOME and NODE_VERSION variables,
path.resolve / path.normalize, fs.existsSync, and the subprocess result. -/
structure Env : Type where
  clinePathVar : Option (List Char)
  home : Option (List Char)
  nodeVersionVar : Option (List Char)
  resolve : List Char → List Char
  normalize : List Char → List Char
  fsExists : List Char → Bool
  outcome : ExecOutcome

/-- ClineOptions (source lines 99-108). -/
inductive Mode : Type where
  | act
  | plan
deriving DecidableEq, Repr

/-- The string value of a mode. -/
def modeStr : Mode → List Char
  | Mode.act => ['a', 'c', 't']
  | Mode.plan => ['p', 'l', 'a', 'n']

/-- Options accepted by runClineTask. -/
structure ClineOptions : Type where
  yolo : Option Bool
  mode : Option Mode
  cwd : Option (List Char)
  timeout : Option Nat
deriving DecidableEq, Repr

/-- ClineResult (source lines 114-121): error is undefined or a string. -/
structure ClineResult : Type where
  success : Bool
  output : List Char
  error : Option (List Char)
deriving DecidableEq, Repr

/-- One recorded call of the subprocess-execution primitive. -/
structure SpawnCall : Type where
  path : List Char
  args : List (List Char)
deriving DecidableEq, Repr

/-- Helper for the NODE_VERSION format regex `^v\d+\.\d+\.\d+$` (source line
82): a nonempty digit run. -/
def digits1 (s : List Char) : Option (List Char) :=
  let d := s.takeWhile Char.isDigit
  if d.isEmpty then none else some (s.drop d.length)

/-- Test of the NODE_VERSION format regex. -/
def versionFormatOk (s : List Char) : Bool :=
  match s with
  | 'v' :: r =>
    (match digits1 r with
     | none => false
     | some r1 =>
       match matchLit ['.'] r1 with
       | none => false
       | some r2 =>
         match digits1 r2 with
         | none => false
         | some r3 =>
           match matchLit ['.'] r3 with
           | none => false
           | some r4 =>
             match digits1 r4 with
             | none => false
             | some r5 => r5.isEmpty)
  | _ => false

/-- NODE_VERSION (source lines 77-88): unset or empty or ill-formed falls
back to v23.11.0. -/
def nodeVersion (env : Env) : List Char :=
  match env.nodeVersionVar with
  | none => ("v23.11.0").toList
  | some v =>
    if v.isEmpty then ("v23.11.0").toList
    else if versionFormatOk v then v
    else ("v23.11.0").toList

/-- The HOME variable as a template literal prints it: an unset variable
prints as the text undefined. -/
def homeStr (env : Env) : List Char :=
  match env.home with
  | some h => h
  | none => ("undefined").toList

/-- The nvm fallback path (source line 262). -/
def nvmPath (env : Env) : List Char :=
  homeStr env ++ ("/.nvm/versions/node/").toList ++ nodeVersion env
    ++ ("/bin/cline").toList

/-- Substring test for two consecutive dots, as the includes call on the
two-dot string performs. -/
def hasDotDot : List Char → Bool
  | [] => false
  | [_] => false
  | c :: d :: rest =>
    if c == '.' && d == '.' then true else hasDotDot (d :: rest)

/-- validatePath (source lines 148-164): resolve and normalize the candidate,
reject when either form contains two consecutive dots, otherwise accept
exactly when the resolved path exists.  The surrounding try/catch returns
false on an exception; the model is total so that branch is unreachable. -/
def validatePath (env : Env) (p : List Char) : Bool :=
  let resolved := env.resolve p
  let normalized := env.normalize p
  if hasDotDot normalized || hasDotDot resolved then false
  else env.fsExists resolved

/-- getClinePath (source lines 256-264): the CLINE_PATH variable when truthy
and valid, else the nvm path when valid, else the bare command cline. -/
def getClinePath (env : Env) : List Char :=
  match env.clinePathVar with
  | some p =>
    if !p.isEmpty && validatePath env p then p
    else if validatePath env (nvmPath env) then nvmPath env
    else ("cline").toList
  | none =>
    if validatePath env (nvmPath env) then nvmPath env
    else ("cline").toList

/-- The character allow-list of sanitizeInput: `[a-zA-Z0-9\s\-_.,@/]`. -/
def allowedChar (c : Char) : Bool :=
  ('a' ≤ c && c ≤ 'z') || ('A' ≤ c && c ≤ 'Z') || ('0' ≤ c && c ≤ '9') ||
  jsSpace c || c == '-' || c == '_' || c == '.' || c == ',' ||
  c == '@' || c == '/'

/-- MAX_INPUT_LENGTH (source line 186). -/
def maxInputLength : Nat := 10000

/-- Error message thrown for an over-long prompt. -/
def msgTooLong : List Char := ("[AgentMesh] Input exceeds maximum length").toList

/-- Error message thrown for a falsy prompt. -/
def msgBadPrompt : List Char := ("Invalid prompt parameter").toList

/-- sanitizeInput (source lines 180-192): throw when the input exceeds
10000 characters, otherwise delete every character outside the allow-list.
(The typeof check is enforced by the type of the model.) -/
def sanitizeInput (input : List Char) : Except (List Char) (List Char) :=
  if maxInputLength < input.length then Except.error msgTooLong
  else Except.ok (input.filter allowedChar)

/-- The argument list built by runClineTask (source lines 294-303), in push
order: -y unless yolo is explicitly false, -m plus the mode when given, then
--output-format json --oneshot and the sanitized prompt. -/
def buildArgs (opts : ClineOptions) (sanitized : List Char) : List (List Char) :=
  let a0 : List (List Char) := []
  let a1 := if opts.yolo == some false then a0 else a0 ++ [['-', 'y']]
  let a2 := match opts.mode with
            | some m => a1 ++ [['-', 'm'], modeStr m]
            | none => a1
  let a3 := a2 ++ [("--output-format").toList, ("json").toList, ("--oneshot").toList]
  a3 ++ [sanitized]

/-- runClineTask (source lines 282-392).  Returns the result (or the thrown
error) together with the list of subprocess invocations performed.  The
falsy-prompt and sanitizer checks throw; after them the single execa call is
recorded, and both exec outcomes produce a structured ClineResult: on normal
exit the extractor runs and stderr is kept as a non-fatal error field; on a
rejected promise the partial stdout is the output and stderr, when nonempty,
takes precedence over the error message. -/
def runClineTask (env : Env) (prompt : List Char) (opts : ClineOptions) :
    Except (List Char) ClineResult × List SpawnCall :=
  if prompt.isEmpty then (Except.error msgBadPrompt, [])
  else
    match sanitizeInput prompt with
    | Except.error e => (Except.error e, [])
    | Except.ok sanitized =>
      let call : SpawnCall := ⟨getClinePath env, buildArgs opts sanitized⟩
      match env.outcome with
      | ExecOutcome.ok stdout stderr =>
        (Except.ok ⟨true, extractOutput stdout,
           if stderr.isEmpty then none else some stderr⟩, [call])
      | ExecOutcome.fail msg stdout stderr =>
        (Except.ok ⟨false, stdout,
           some (if stderr.isEmpty then msg else stderr)⟩, [call])

deriving instance DecidableEq for Except

/-- Is an Except a success? -/
def exceptIsOk {e a : Type} : Except e a → Bool
  | Except.ok _ => true
  | Except.error _ => false

/-! ## Specification-side definitions (written from the claims, for the
refinement claims C8 and C9) -/

/-- Validation policy as the claim words it: reject a candidate whose
resolved or normalized form contains a parent-directory traversal marker,
otherwise accept exactly when it exists. -/
def specValidate (env : Env) (p : List Char) : Bool :=
  !(hasDotDot (env.normalize p) || hasDotDot (env.resolve p))
    && env.fsExists (env.resolve p)

/-- The ordered candidate list of the claim: the environment-supplied
override (when supplied, i.e. set and nonempty) first, then the
version-manager fallback. -/
def specCandidates (env : Env) : List (List Char) :=
  (match env.clinePathVar with
   | some p => if p.isEmpty then [] else [p]
   | none => []) ++ [nvmPath env]

/-- Resolution as the claim words it: the first candidate passing
validation, else the bare command name. -/
def specClinePath (env : Env) : List Char :=
  match (specCandidates env).find? (fun p => specValidate env p) with
  | some p => p
  | none => ("cline").toList

/-- The argument shape as the claim words it: an optional -y, an optional
-m mode pair, the three fixed flags, the sanitized prompt last. -/
def specArgs (opts : ClineOptions) (sanitized : List Char) : List (List Char) :=
  (if opts.yolo == some false then [] else [['-', 'y']]) ++
  (match opts.mode with
   | some m => [['-', 'm'], modeStr m]
   | none => []) ++
  [("--output-format").toList, ("json").toList, ("--oneshot").toList, sanitized]

/-! ## Helper lemmas -/

theorem orElse_some {α : Type} (v : α) (g : Unit → Option α) :
    (some v).orElse g = some v := rfl

theorem orElse_none {α : Type} (g : Unit → Option α) :
    (none : Option α).orElse g = g () := rfl

theorem matchLit_cons_ne {l c : Char} {ls cs : List Char} (h : c ≠ l) :
    matchLit (l :: ls) (c :: cs) = none := by
  simp [matchLit, h]

theorem matchLit_self_append (l s : List Char) : matchLit l (l ++ s) = some s := by
  induction l with
  | nil => rfl
  | cons c cs ih => simp [matchLit, ih]

theorem matchLit_length {l s r : List Char} (h : matchLit l s = some r) :
    s.length = l.length + r.length := by
  induction l generalizing s with
  | nil =>
    simp [matchLit] at h
    simp [h]
  | cons c cs ih =>
    cases s with
    | nil => simp [matchLit] at h
    | cons x xs =>
      simp only [matchLit] at h
      by_cases hx : x == c
      · simp [hx] at h
        have := ih h
        simp [List.length_cons, this]
        omega
      · simp [hx] at h

theorem scanFirst_cons {α : Type} (f : List Char → Option α) (c : Char)
    (cs : List Char) :
    scanFirst f (c :: cs) = (f (c :: cs)).orElse (fun _ => scanFirst f cs) := rfl

theorem scanFirst_of_some {α : Type} {f : List Char → Option α} {s : List Char}
    {v : α} (h : f s = some v) : scanFirst f s = some v := by
  cases s with
  | nil => simpa [scanFirst] using h
  | cons c cs => simp [scanFirst, h, orElse_some]

theorem scanFirst_eq_none {α : Type} {f : List Char → Option α} {s : List Char}
    (h : ∀ s', s' <:+ s → f s' = none) : scanFirst f s = none := by
  induction s with
  | nil => simpa [scanFirst] using h [] (List.nil_suffix)
  | cons c cs ih =>
    have h0 : f (c :: cs) = none := h (c :: cs) (List.suffix_refl _)
    have hrest : ∀ s', s' <:+ cs → f s' = none := by
      intro s' hs'
      exact h s' (hs'.trans (List.suffix_cons c cs))
    simp [scanFirst, h0, orElse_none, ih hrest]

theorem greedy_cons_pos {α : Type} {cls : Char → Bool}
    {tail : List Char → Option α} {c : Char} {cs : List Char}
    (h : cls c = true) :
    greedy cls tail (c :: cs)
      = (greedy cls tail cs).orElse (fun _ => tail (c :: cs)) := by
  simp [greedy, h]

theorem greedy_eq_none {α : Type} {cls : Char → Bool}
    {tail : List Char → Option α} {s : List Char}
    (h : ∀ s', s' <:+ s → tail s' = none) : greedy cls tail s = none := by
  induction s with
  | nil => simpa [greedy] using h [] (List.nil_suffix)
  | cons c cs ih =>
    have h0 : tail (c :: cs) = none := h (c :: cs) (List.suffix_refl _)
    have hrest : ∀ s', s' <:+ cs → tail s' = none := by
      intro s' hs'
      exact h s' (hs'.trans (List.suffix_cons c cs))
    by_cases hcc : cls c = true
    · simp [greedy_cons_pos hcc, ih hrest, h0, orElse_none]
    · have hcc' : cls c = false := by simpa using hcc
      simp [greedy, hcc', h0]

theorem globalScanAux_eq_nil {s : List Char}
    (h : ∀ s', s' <:+ s → tryTextAt s' = none) :
    ∀ n, globalScanAux n s = [] := by
  induction s with
  | nil => intro n; cases n <;> rfl
  | cons c cs ih =>
    intro n
    cases n with
    | zero => rfl
    | succ m =>
      have h0 : tryTextAt (c :: cs) = none := h (c :: cs) (List.suffix_refl _)
      have hrest : ∀ s', s' <:+ cs → tryTextAt s' = none := by
        intro s' hs'
        exact h s' (hs'.trans (List.suffix_cons c cs))
      simp [globalScanAux, h0, ih hrest]

theorem length_dropWhile_le (p : Char → Bool) (l : List Char) :
    (l.dropWhile p).length ≤ l.length := by
  induction l with
  | nil => simp
  | cons c cs ih =>
    rw [List.dropWhile_cons]
    by_cases h : p c = true
    · rw [if_pos h]
      exact Nat.le_succ_of_le ih
    · rw [if_neg h]

theorem matchColon_length {s r : List Char} (h : matchColon s = some r) :
    r.length ≤ s.length := by
  unfold matchColon at h
  cases hm : matchLit [':'] (skipWs s) with
  | none => rw [hm] at h; simp at h
  | some r1 =>
    rw [hm] at h
    simp only [Option.some.injEq] at h
    subst h
    have h1 : (skipWs s).length = 1 + r1.length := by
      simpa using matchLit_length hm
    have h2 : (skipWs s).length ≤ s.length := length_dropWhile_le _ _
    have h3 : (skipWs r1).length ≤ r1.length := length_dropWhile_le _ _
    omega

theorem tryTextTail_length {s r : List Char} (h : tryTextTail s = some r) :
    r.length < s.length := by
  unfold tryTextTail at h
  split at h
  · simp at h
  next s1 h1 =>
    split at h
    · simp at h
    next s2 h2 =>
      split at h
      · simp at h
      next s3 h3 =>
        split at h
        · simp at h
        next c r' h4 =>
          split at h
          · simp at h
          · split at h
            · simp only [Option.some.injEq] at h
              subst h
              have l1 : s.length = 6 + s1.length := by
                simpa [litTextKey] using matchLit_length h1
              have l2 : s2.length ≤ s1.length := matchColon_length h2
              have l3 : s2.length = 1 + s3.length := by
                simpa using matchLit_length h3
              have l4 : (c :: r').length ≤ s3.length := by
                rw [← h4]
                exact length_dropWhile_le _ _
              simp at l4
              omega
            · simp at h

theorem lazyStar_some {α : Type} {cls : Char → Bool}
    {tail : List Char → Option α} {s : List Char} {r : α}
    (h : lazyStar cls tail s = some r) :
    ∃ s', s'.length ≤ s.length ∧ tail s' = some r := by
  induction s with
  | nil => exact ⟨[], Nat.le_refl _, by simpa [lazyStar] using h⟩
  | cons c cs ih =>
    rw [lazyStar] at h
    cases ht : tail (c :: cs) with
    | some v =>
      rw [ht, orElse_some] at h
      exact ⟨c :: cs, Nat.le_refl _, by rw [ht, h]⟩
    | none =>
      rw [ht, orElse_none] at h
      by_cases hc : cls c = true
      · rw [if_pos hc] at h
        obtain ⟨s', hlen, hs'⟩ := ih h
        exact ⟨s', Nat.le_succ_of_le hlen, hs'⟩
      · rw [if_neg hc] at h
        simp at h

theorem tryTextAt_rest_length {s m rest : List Char}
    (h : tryTextAt s = some (m, rest)) : rest.length < s.length := by
  unfold tryTextAt at h
  split at h
  · simp at h
  next s1 h1 =>
    split at h
    · simp at h
    next s2 h2 =>
      split at h
      · simp at h
      next s3 h3 =>
        split at h
        · simp at h
        next rest' h4 =>
          simp only [Option.some.injEq, Prod.mk.injEq] at h
          obtain ⟨s', hlen, hs'⟩ := lazyStar_some h4
          have l0 : rest'.length < s'.length := tryTextTail_length hs'
          have l1 : s.length = 5 + s1.length := by
            simpa [litSay] using matchLit_length h1
          have l2 : s2.length ≤ s1.length := matchColon_length h2
          have l3 : s2.length = 6 + s3.length := by
            simpa [litTextKey] using matchLit_length h3
          have hre : rest.length = rest'.length := by rw [h.2.symm]
          omega

/-- The fuel of globalScanAux is irrelevant above the input length: every
step consumes at least one character. -/
theorem globalScanAux_fuel {f g : Nat} {s : List Char}
    (hf : s.length < f) (hg : s.length < g) :
    globalScanAux f s = globalScanAux g s := by
  induction f generalizing s g with
  | zero => omega
  | succ f' ih =>
    cases g with
    | zero => omega
    | succ g' =>
      cases s with
      | nil => rfl
      | cons c cs =>
        simp only [globalScanAux]
        cases ht : tryTextAt (c :: cs) with
        | none =>
          have h1 : cs.length < f' := by simp at hf; omega
          have h2 : cs.length < g' := by simp at hg; omega
          exact ih h1 h2
        | some p =>
          obtain ⟨mm, rest⟩ := p
          have hr : rest.length < (c :: cs).length := tryTextAt_rest_length ht
          have h1 : rest.length < f' := by simp at hf hr ⊢; omega
          have h2 : rest.length < g' := by simp at hg hr ⊢; omega
          exact congrArg (List.cons mm) (ih h1 h2)

theorem suffix_append_cases {α : Type} {s' a b : List α} (h : s' <:+ a ++ b) :
    s' <:+ b ∨ ∃ a', a' <:+ a ∧ s' = a' ++ b := by
  induction a with
  | nil => exact Or.inl (by simpa using h)
  | cons x xs ih =>
    rw [List.cons_append, List.suffix_cons_iff] at h
    rcases h with h | h
    · exact Or.inr ⟨x :: xs, List.suffix_refl _, by simpa using h⟩
    · rcases ih h with h1 | ⟨a', ha, he⟩
      · exact Or.inl h1
      · exact Or.inr ⟨a', ha.trans (List.suffix_cons x xs), he⟩

theorem suffix_replicate {α : Type} {s' : List α} {n : Nat} {c : α}
    (h : s' <:+ List.replicate n c) :
    s' = List.replicate s'.length c ∧ s'.length ≤ n := by
  constructor
  · exact List.eq_replicate_of_mem (fun b hb =>
      List.eq_of_mem_replicate (h.subset hb))
  · simpa using h.length_le

theorem takeWhile_append_pos {p s : List Char} {q : Char → Bool}
    (h : ∀ c ∈ p, q c = true) :
    (p ++ s).takeWhile q = p ++ s.takeWhile q := by
  induction p with
  | nil => simp
  | cons c cs ih =>
    have hc : q c = true := h c (List.mem_cons_self c cs)
    have hcs : ∀ x ∈ cs, q x = true := fun x hx => h x (List.mem_cons_of_mem c hx)
    simp [List.takeWhile_cons, hc, ih hcs]

theorem dropWhile_append_pos {p s : List Char} {q : Char → Bool}
    (h : ∀ c ∈ p, q c = true) :
    (p ++ s).dropWhile q = s.dropWhile q := by
  induction p with
  | nil => simp
  | cons c cs ih =>
    have hc : q c = true := h c (List.mem_cons_self c cs)
    have hcs : ∀ x ∈ cs, q x = true := fun x hx => h x (List.mem_cons_of_mem c hx)
    simp [List.dropWhile_cons, hc, ih hcs]

theorem list_pair_induction {α : Type} {motive : List α → Prop} (h0 : motive [])
    (h1 : ∀ c, motive [c])
    (h2 : ∀ c d ds, motive ds → motive (d :: ds) → motive (c :: d :: ds)) :
    ∀ s, motive s := by
  have key : ∀ n s, List.length s ≤ n → motive s := by
    intro n
    induction n with
    | zero =>
      intro s hs
      cases s with
      | nil => exact h0
      | cons c cs => simp at hs
    | succ m ih =>
      intro s hs
      cases s with
      | nil => exact h0
      | cons c cs =>
        cases cs with
        | nil => exact h1 c
        | cons d ds =>
          have hl : ds.length ≤ m := by simp at hs; omega
          have hl2 : (d :: ds).length ≤ m := by simp at hs ⊢; omega
          exact h2 c d ds (ih ds hl) (ih (d :: ds) hl2)
  exact fun s => key s.length s (Nat.le_refl _)

theorem replEsc_id {t r : Char} {s : List Char} (h : ∀ x ∈ s, x ≠ t) :
    replEsc t r s = s := by
  revert h
  induction s using list_pair_induction with
  | h0 => intro _; rfl
  | h1 c => intro _; rfl
  | h2 c d ds ih1 ih2 =>
    intro h
    have hd : (d == t) = false :=
      beq_eq_false_iff_ne.mpr (h d (List.mem_cons_of_mem c (List.mem_cons_self d ds)))
    have hrest : ∀ x ∈ d :: ds, x ≠ t := fun x hx => h x (List.mem_cons_of_mem c hx)
    simp [replEsc, hd, ih2 hrest]

/-! ## Runner-level helper lemmas -/

theorem validatePath_eq_spec (env : Env) (p : List Char) :
    validatePath env p = specValidate env p := by
  unfold validatePath specValidate
  cases h : (hasDotDot (env.normalize p) || hasDotDot (env.resolve p)) <;> simp [h]

theorem buildArgs_eq_spec (opts : ClineOptions) (sp : List Char) :
    buildArgs opts sp = specArgs opts sp := by
  unfold buildArgs specArgs
  cases hy : (opts.yolo == some false) <;> cases hm : opts.mode <;> simp [hy, hm]

/-- Exhaustive shape of runClineTask: falsy prompt throws, over-long prompt
throws from the sanitizer, and otherwise exactly one spawn happens whose
outcome is mapped to a structured result. -/
theorem runClineTask_cases (env : Env) (prompt : List Char) (opts : ClineOptions) :
    (prompt = [] ∧ runClineTask env prompt opts = (Except.error msgBadPrompt, [])) ∨
    (prompt ≠ [] ∧ maxInputLength < prompt.length ∧
      runClineTask env prompt opts = (Except.error msgTooLong, [])) ∨
    (prompt ≠ [] ∧ prompt.length ≤ maxInputLength ∧
      runClineTask env prompt opts =
        (match env.outcome with
         | ExecOutcome.ok so se =>
           (Except.ok ⟨true, extractOutput so, if se.isEmpty then none else some se⟩,
            [⟨getClinePath env, buildArgs opts (prompt.filter allowedChar)⟩])
         | ExecOutcome.fail m so se =>
           (Except.ok ⟨false, so, some (if se.isEmpty then m else se)⟩,
            [⟨getClinePath env, buildArgs opts (prompt.filter allowedChar)⟩]))) := by
  by_cases he : prompt.isEmpty = true
  · left
    exact ⟨List.isEmpty_iff.mp he, by simp [runClineTask, he]⟩
  · have he' : prompt.isEmpty = false := by simpa using he
    have hne : prompt ≠ [] := by
      intro hcon
      rw [hcon] at he'
      simp at he'
    by_cases hl : maxInputLength < prompt.length
    · right; left
      refine ⟨hne, hl, ?_⟩
      simp [runClineTask, he', sanitizeInput, hl]
    · right; right
      refine ⟨hne, by omega, ?_⟩
      cases ho : env.outcome <;>
        simp [runClineTask, he', sanitizeInput, hl, ho]

/-! ## Concrete instances for witnesses -/

/-- Default options: everything unset. -/
def optsNone : ClineOptions := ⟨none, none, none, none⟩

/-- A concrete environment whose single execution exits normally with output
out and stderr warn. -/
def envOk : Env :=
  ⟨none, none, none, id, id, fun _ => false,
   ExecOutcome.ok (("out").toList) (("warn").toList)⟩

/-- A concrete environment whose single execution fails with message boom,
partial stdout and nonempty stderr. -/
def envFail : Env :=
  ⟨none, none, none, id, id, fun _ => false,
   ExecOutcome.fail (("boom").toList) (("part").toList) (("errs").toList)⟩

/-! ## Claims C3, C4, C5, C7, C8, C9, C10 -/

/-- C3: for every prompt longer than the 10000-character ceiling,
runClineTask throws the input-validation error before the subprocess
primitive is invoked, and the list of performed subprocess invocations is
empty. -/
theorem c3_oversized_prompt_rejected_before_spawn (env : Env)
    (opts : ClineOptions) (prompt : List Char)
    (h : maxInputLength < prompt.length) :
    (runClineTask env prompt opts).1 = Except.error msgTooLong ∧
    (runClineTask env prompt opts).2 = [] := by
  rcases runClineTask_cases env prompt opts with ⟨he, _⟩ | ⟨_, _, heq⟩ | ⟨_, hle, _⟩
  · rw [he] at h
    simp [maxInputLength] at h
  · exact ⟨by rw [heq], by rw [heq]⟩
  · omega

/-- Witness for C3 at a concrete 10001-character prompt. -/
theorem c3_witness :
    maxInputLength < (List.replicate 10001 'a').length ∧
    (runClineTask envOk (List.replicate 10001 'a') optsNone).1
      = Except.error msgTooLong ∧
    (runClineTask envOk (List.replicate 10001 'a') optsNone).2 = [] := by
  have h : maxInputLength < (List.replicate 10001 'a').length := by
    rw [List.length_replicate]
    unfold maxInputLength
    omega
  exact ⟨h, (c3_oversized_prompt_rejected_before_spawn envOk optsNone _ h).1,
    (c3_oversized_prompt_rejected_before_spawn envOk optsNone _ h).2⟩

/-- C4: for every string within the ceiling, sanitizeInput succeeds and
returns exactly the input with all characters outside the allow-list
deleted; hence every output character is allow-listed, the retained
characters keep their relative order (sublist), and the output length never
exceeds the input length nor the ceiling. -/
theorem c4_sanitize_is_allowlist_filter (s : List Char)
    (h : s.length ≤ maxInputLength) :
    sanitizeInput s = Except.ok (s.filter allowedChar) ∧
    (∀ c ∈ s.filter allowedChar, allowedChar c = true) ∧
    (s.filter allowedChar).Sublist s ∧
    (s.filter allowedChar).length ≤ s.length ∧
    (s.filter allowedChar).length ≤ maxInputLength := by
  refine ⟨?_, ?_, ?_, ?_, ?_⟩
  · unfold sanitizeInput
    rw [if_neg (by omega)]
  · intro c hc
    exact List.of_mem_filter hc
  · exact List.filter_sublist s
  · exact List.length_filter_le _ s
  · exact le_trans (List.length_filter_le _ s) h

/-- Witness for C4 at a concrete string containing disallowed characters. -/
theorem c4_witness :
    (("a!b;c").toList).length ≤ maxInputLength ∧
    sanitizeInput (("a!b;c").toList)
      = Except.ok ((("a!b;c").toList).filter allowedChar) := by
  have h : (("a!b;c").toList).length ≤ maxInputLength := by decide
  exact ⟨h, (c4_sanitize_is_allowlist_filter _ h).1⟩

/-- C5: runClineTask returns normally (no thrown error) exactly when the
prompt is truthy and within the length ceiling — every subprocess-lifecycle
failure is downgraded to a structured result, and such a failed execution
always carries success equal to false. -/
theorem c5_throws_only_on_invalid_input (env : Env) (prompt : List Char)
    (opts : ClineOptions) :
    (exceptIsOk (runClineTask env prompt opts).1 = true ↔
      (prompt ≠ [] ∧ prompt.length ≤ maxInputLength)) ∧
    (∀ m so se r, env.outcome = ExecOutcome.fail m so se →
      (runClineTask env prompt opts).1 = Except.ok r → r.success = false) := by
  rcases runClineTask_cases env prompt opts with ⟨he, heq⟩ | ⟨hne, hl, heq⟩ |
    ⟨hne, hle, heq⟩
  · constructor
    · rw [heq]
      simp [exceptIsOk, he]
    · intro m so se r _ hr
      rw [heq] at hr
      simp at hr
  · constructor
    · rw [heq]
      simp [exceptIsOk]
      omega
    · intro m so se r _ hr
      rw [heq] at hr
      simp at hr
  · constructor
    · rw [heq]
      cases ho : env.outcome <;> simp [ho, exceptIsOk, hne, hle]
    · intro m so se r ho hr
      rw [heq, ho] at hr
      simp at hr
      rw [← hr]

/-- C7: for every subprocess failure (non-zero exit, spawn failure or
timeout, all surfaced as a rejected execution), runClineTask returns a
structured result with success false, the captured partial stdout as output,
and stderr as the diagnostic when stderr is nonempty, the process error
message otherwise. -/
theorem c7_failure_maps_to_structured_result (env : Env) (prompt : List Char)
    (opts : ClineOptions) (m so se : List Char)
    (h1 : prompt ≠ []) (h2 : prompt.length ≤ maxInputLength)
    (ho : env.outcome = ExecOutcome.fail m so se) :
    (runClineTask env prompt opts).1
      = Except.ok ⟨false, so, some (if se.isEmpty then m else se)⟩ := by
  rcases runClineTask_cases env prompt opts with ⟨he, _⟩ | ⟨_, hl, _⟩ |
    ⟨_, _, heq⟩
  · exact absurd he h1
  · omega
  · rw [heq, ho]

/-- Witness for C7 at a concrete failing environment: stderr errs is
nonempty, so it takes precedence over the message boom. -/
theorem c7_witness :
    (runClineTask envFail (("hi").toList) optsNone).1
      = Except.ok ⟨false, ("part").toList,
          some (if (("errs").toList).isEmpty then ("boom").toList
                else ("errs").toList)⟩ :=
  c7_failure_maps_to_structured_result envFail (("hi").toList) optsNone
    (("boom").toList) (("part").toList) (("errs").toList)
    (by decide) (by decide) rfl

/-- C8: getClinePath prefers the environment override, then the
version-manager fallback, then the bare command name, each candidate
accepted exactly by the claimed validation policy (reject on a
parent-traversal marker in the resolved or normalized form, else accept
exactly when the resolved path exists); both functions are total, so
resolution never throws. -/
theorem c8_path_resolution_matches_spec (env : Env) :
    getClinePath env = specClinePath env ∧
    (∀ p, validatePath env p = specValidate env p) := by
  refine ⟨?_, validatePath_eq_spec env⟩
  unfold getClinePath specClinePath specCandidates
  cases hc : env.clinePathVar with
  | none =>
    cases hv : validatePath env (nvmPath env) <;>
      simp [List.find?, ← validatePath_eq_spec, hv]
  | some p =>
    by_cases hp : p.isEmpty = true
    · cases hv : validatePath env (nvmPath env) <;>
        simp [hp, List.find?, ← validatePath_eq_spec, hv]
    · have hp' : p.isEmpty = false := by simpa using hp
      cases hvp : validatePath env p
      · cases hv : validatePath env (nvmPath env) <;>
          simp [hp', List.find?, ← validatePath_eq_spec, hvp, hv]
      · simp [hp', List.find?, ← validatePath_eq_spec, hvp]

/-- C9: for every valid call, exactly one subprocess invocation is made,
whose argument list has the claimed shape: -y unless auto-approve was
explicitly disabled, then -m and the mode when specified, then always
--output-format json --oneshot, and the sanitized prompt last. -/
theorem c9_argument_shape (env : Env) (prompt : List Char)
    (opts : ClineOptions)
    (h1 : prompt ≠ []) (h2 : prompt.length ≤ maxInputLength) :
    (runClineTask env prompt opts).2
      = [⟨getClinePath env, specArgs opts (prompt.filter allowedChar)⟩] := by
  rcases runClineTask_cases env prompt opts with ⟨he, _⟩ | ⟨_, hl, _⟩ |
    ⟨_, _, heq⟩
  · exact absurd he h1
  · omega
  · rw [heq]
    cases ho : env.outcome <;> simp [buildArgs_eq_spec]

/-- Witness for C9 at a concrete call with a mode and default auto-approve. -/
theorem c9_witness :
    (runClineTask envOk (("hi").toList) ⟨none, some Mode.plan, none, none⟩).2
      = [⟨getClinePath envOk,
          specArgs ⟨none, some Mode.plan, none, none⟩
            ((("hi").toList).filter allowedChar)⟩] :=
  c9_argument_shape envOk (("hi").toList) ⟨none, some Mode.plan, none, none⟩
    (by decide) (by decide)

/-- C10: when the subprocess exits with status zero, runClineTask returns
success true even when stderr is nonempty, and the error field of the
successful result is the captured stderr (none exactly when stderr is
empty) — a defined error field therefore does not imply failure. -/
theorem c10_success_keeps_stderr (env : Env) (prompt : List Char)
    (opts : ClineOptions) (so se : List Char)
    (h1 : prompt ≠ []) (h2 : prompt.length ≤ maxInputLength)
    (ho : env.outcome = ExecOutcome.ok so se) :
    (runClineTask env prompt opts).1
      = Except.ok ⟨true, extractOutput so,
          if se.isEmpty then none else some se⟩ := by
  rcases runClineTask_cases env prompt opts with ⟨he, _⟩ | ⟨_, hl, _⟩ |
    ⟨_, _, heq⟩
  · exact absurd he h1
  · omega
  · rw [heq, ho]

/-- Witness for C10: a zero-exit run with nonempty stderr warn yields
success true with the error field set to warn. -/
theorem c10_witness :
    (runClineTask envOk (("hi").toList) optsNone).1
      = Except.ok ⟨true, extractOutput (("out").toList),
          if (("warn").toList).isEmpty then none else some (("warn").toList)⟩ :=
  c10_success_keeps_stderr envOk (("hi").toList) optsNone
    (("out").toList) (("warn").toList) (by decide) (by decide) rfl

/-! ## Claim C1: the no-match fallback -/

theorem tryCompletion_cons_ne {c : Char} {cs : List Char} (h : c ≠ '"') :
    tryCompletion (c :: cs) = none := by
  have hb : (c == '"') = false := beq_eq_false_iff_ne.mpr h
  simp [tryCompletion, litSay, matchLit, hb]

theorem tryPlan_cons_ne {c : Char} {cs : List Char} (h : c ≠ '"') :
    tryPlan (c :: cs) = none := by
  have hb : (c == '"') = false := beq_eq_false_iff_ne.mpr h
  simp [tryPlan, litResponse, matchLit, hb]

theorem tryTextAt_cons_ne {c : Char} {cs : List Char} (h : c ≠ '"') :
    tryTextAt (c :: cs) = none := by
  have hb : (c == '"') = false := beq_eq_false_iff_ne.mpr h
  simp [tryTextAt, litSay, matchLit, hb]

theorem tryTextCapture_cons_ne {c : Char} {cs : List Char} (h : c ≠ '"') :
    tryTextCapture (c :: cs) = none := by
  have hb : (c == '"') = false := beq_eq_false_iff_ne.mpr h
  simp [tryTextCapture, litTextKey, matchLit, hb]

/-- Every matcher needs a double quote as the first character of a match, so
a quote-free stdout matches none of the three patterns; in that case the
extractor keeps the raw stdout unchanged. -/
theorem extractOutput_of_no_quote {s : List Char} (h0 : s ≠ [])
    (h : ∀ c ∈ s, c ≠ '"') : extractOutput s = s := by
  have hsub : ∀ (s' : List Char), s' <:+ s → ∀ c ∈ s', c ≠ '"' :=
    fun s' hs' c hc => h c (hs'.subset hc)
  have hcompl : scanFirst tryCompletion s = none := by
    apply scanFirst_eq_none
    intro s' hs'
    cases s' with
    | nil => rfl
    | cons c cs =>
      exact tryCompletion_cons_ne (hsub _ hs' c (List.mem_cons_self c cs))
  have hplan : scanFirst tryPlan s = none := by
    apply scanFirst_eq_none
    intro s' hs'
    cases s' with
    | nil => rfl
    | cons c cs =>
      exact tryPlan_cons_ne (hsub _ hs' c (List.mem_cons_self c cs))
  have htext : globalScan s = [] := by
    apply globalScanAux_eq_nil
    intro s' hs'
    cases s' with
    | nil => rfl
    | cons c cs =>
      exact tryTextAt_cons_ne (hsub _ hs' c (List.mem_cons_self c cs))
  have hne : s.isEmpty = false := by
    cases s with
    | nil => exact absurd rfl h0
    | cons c cs => rfl
  simp [extractOutput, hcompl, hplan, htext, hne]

/-- C1 counterexample: a 3500-character unstructured stdout (3500 letters a)
is returned whole by the extractor, not as the first 2000 characters plus
the truncation marker the claim states. -/
theorem c1_counterexample :
    extractOutput (List.replicate 3500 'a') = List.replicate 3500 'a' ∧
    extractOutput (List.replicate 3500 'a')
      ≠ truncFallback (List.replicate 3500 'a') := by
  have hl1 : (List.replicate 3500 'a').length = 3500 := List.length_replicate 3500 'a'
  have h : ∀ c ∈ List.replicate 3500 'a', c ≠ '"' := by
    intro c hc
    rw [List.eq_of_mem_replicate hc]
    decide
  have h0 : List.replicate 3500 'a' ≠ [] := by
    intro hcon
    rw [hcon] at hl1
    simp at hl1
  have he := extractOutput_of_no_quote h0 h
  refine ⟨he, ?_⟩
  rw [he]
  have hl2 : (truncFallback (List.replicate 3500 'a')).length = 2003 := by
    unfold truncFallback
    rw [List.length_append, List.length_take, hl1]
    rw [if_pos (by norm_num)]
    norm_num
  intro hcon
  rw [hcon, hl2] at hl1
  exact absurd hl1 (by norm_num)

/-- C1 amended: when none of the three structured patterns matches — in
particular for any nonempty stdout containing no double-quote character —
runClineTask's extractor returns the raw stdout unchanged and untruncated;
the 2000-character truncation with marker sits only in the catch branch,
which the (total) extraction path never reaches. -/
theorem c1_amended_no_match_keeps_raw_stdout (s : List Char) (h0 : s ≠ [])
    (h : ∀ c ∈ s, c ≠ '"') : extractOutput s = s :=
  extractOutput_of_no_quote h0 h

/-- Witness for C1 at the concrete unstructured stdout hello. -/
theorem c1_witness :
    ("hello").toList ≠ [] ∧ extractOutput (("hello").toList) = ("hello").toList :=
  ⟨by decide, c1_amended_no_match_keeps_raw_stdout (("hello").toList)
    (by decide) (by decide)⟩

/-! ## Claim C6: the text-event tier -/

theorem mem_insertDesc {x y : List Char} {l : List (List Char)} :
    y ∈ insertDesc x l ↔ y = x ∨ y ∈ l := by
  induction l with
  | nil => simp [insertDesc]
  | cons z zs ih =>
    by_cases h : x.length ≥ z.length
    · simp [insertDesc, h]
    · simp [insertDesc, h, ih]
      tauto

theorem mem_sortDesc {y : List Char} {l : List (List Char)} :
    y ∈ sortDesc l ↔ y ∈ l := by
  induction l with
  | nil => simp [sortDesc]
  | cons x xs ih => simp [sortDesc, mem_insertDesc, ih]

theorem sortDesc_head_max {l : List (List Char)} :
    ∀ {t : List Char} {rest : List (List Char)}, sortDesc l = t :: rest →
      ∀ u ∈ l, u.length ≤ t.length := by
  induction l with
  | nil => intro t rest h; simp [sortDesc] at h
  | cons x xs ih =>
    intro t rest h u hu
    rw [sortDesc] at h
    cases hs : sortDesc xs with
    | nil =>
      rw [hs] at h
      simp [insertDesc] at h
      have hxs : xs = [] := by
        cases hxs : xs with
        | nil => rfl
        | cons z zs =>
          rw [hxs] at hs
          rw [sortDesc] at hs
          rcases hzs : sortDesc zs with _ | ⟨w, ws⟩ <;> rw [hzs] at hs <;>
            simp [insertDesc] at hs
          split at hs <;> simp at hs
      rcases List.mem_cons.mp hu with rfl | hmem
      · rw [h.1]
      · rw [hxs] at hmem
        simp at hmem
    | cons z zs =>
      rw [hs] at h
      by_cases hc : x.length ≥ z.length
      · rw [insertDesc, if_pos hc] at h
        have ht : t = x := ((List.cons.injEq _ _ _ _ ▸ h).1).symm
        rcases List.mem_cons.mp hu with rfl | hmem
        · rw [ht]
        · rw [ht]
          exact le_trans (ih hs u hmem) hc
      · rw [insertDesc, if_neg hc] at h
        have ht : t = z := ((List.cons.injEq _ _ _ _ ▸ h).1).symm
        rcases List.mem_cons.mp hu with rfl | hmem
        · rw [ht]; omega
        · rw [ht]; exact ih hs u hmem

theorem pickLongest_spec {l : List (List Char)} {t : List Char}
    (h : pickLongest l = some t) :
    t ∈ l ∧ 50 < t.length ∧ ∀ u ∈ l, 50 < u.length → u.length ≤ t.length := by
  unfold pickLongest at h
  cases hs : sortDesc (l.filter (fun t => 50 < t.length)) with
  | nil => rw [hs] at h; simp at h
  | cons z zs =>
    rw [hs] at h
    have ht : t = z := by simpa using h.symm
    subst ht
    have hmem : t ∈ l.filter (fun t => 50 < t.length) := by
      rw [← mem_sortDesc (l := l.filter (fun t => 50 < t.length)), hs]
      exact List.mem_cons_self t zs
    have hml := List.mem_filter.mp hmem
    refine ⟨hml.1, by simpa using hml.2, ?_⟩
    intro u hu hlen
    have humem : u ∈ l.filter (fun t => 50 < t.length) :=
      List.mem_filter.mpr ⟨hu, by simpa using hlen⟩
    exact sortDesc_head_max hs u humem

/-- A text event fragment with a given text payload. -/
def c6Frag (t : List Char) : List Char :=
  litSay ++ ':' :: litTextKey ++ ',' :: litTextKey ++ ':' :: '"' :: t ++ ['"']

/-- The claimed stdout: three text-event fragments of text lengths 30, 60
and 90, no completion-result or plan-response fragment. -/
def c6Stdout : List Char :=
  c6Frag (List.replicate 30 'p') ++ c6Frag (List.replicate 60 'q')
    ++ c6Frag (List.replicate 90 'r')

/-- C6: on a stdout containing only text-event fragments of lengths 30, 60
and 90, the extractor returns exactly the 90-character fragment text; and in
general the text tier selects only fragments whose extracted text exceeds 50
characters, picking one of maximal length among all candidates. -/
theorem c6_longest_text_event_selected :
    extractOutput c6Stdout = List.replicate 90 'r' ∧
    (∀ (l : List (List Char)) (t : List Char), pickLongest l = some t →
      t ∈ l ∧ 50 < t.length ∧ ∀ u ∈ l, 50 < u.length → u.length ≤ t.length) :=
  ⟨by decide, fun l t h => pickLongest_spec h⟩

/-- Witness for C6: the selection stage applied at a concrete singleton list
with a 60-character text. -/
theorem c6_witness :
    List.replicate 60 'q' ∈ [List.replicate 60 'q'] ∧
    50 < (List.replicate 60 'q').length ∧
    ∀ u ∈ [List.replicate 60 'q'],
      50 < u.length → u.length ≤ (List.replicate 60 'q').length :=
  c6_longest_text_event_selected.2 [List.replicate 60 'q']
    (List.replicate 60 'q') (by decide)

/-! ## Claim C2: escape handling in the completion branch -/

/-- The escape-encoded text of the C2 family: m+1 letters a, an escaped
backslash, k+1 letters b, an escaped quote, j letters c. -/
def c2Enc (m k j : Nat) : List Char :=
  List.replicate (m + 1) 'a' ++ '\\' :: '\\' ::
    (List.replicate (k + 1) 'b' ++ '\\' :: '"' :: List.replicate j 'c')

/-- A stdout holding one completion-result fragment with that text. -/
def c2Stdout (m k j : Nat) : List Char :=
  litSay ++ ':' :: litCompletionResult ++ ',' ::
    (litTextKey ++ ':' :: '"' :: (c2Enc m k j ++ ['"']))

/-- What the extractor actually produces on that stdout. -/
def c2Captured (m k : Nat) : List Char :=
  List.replicate (m + 1) 'a' ++ '\\' :: '\\' ::
    (List.replicate (k + 1) 'b' ++ ['\\'])

/-- The decoded original text the claim says should be reproduced. -/
def c2Original (m k j : Nat) : List Char :=
  List.replicate (m + 1) 'a' ++ '\\' ::
    (List.replicate (k + 1) 'b' ++ '"' :: List.replicate j 'c')

theorem tryTextCapture_quote_ne {c : Char} {cs : List Char} (h : c ≠ 't') :
    tryTextCapture ('"' :: c :: cs) = none := by
  have hb : (c == 't') = false := beq_eq_false_iff_ne.mpr h
  simp [tryTextCapture, litTextKey, matchLit, hb]

theorem tryTextCapture_after_replicate {x : Char} {n : Nat} {X : List Char}
    (hx : x ≠ '"') (hX : ∀ t, t <:+ X → tryTextCapture t = none) :
    ∀ s', s' <:+ List.replicate n x ++ X → tryTextCapture s' = none := by
  intro s' h
  rcases suffix_append_cases h with hB | ⟨a', ha, heq⟩
  · exact hX s' hB
  · rcases suffix_replicate ha with ⟨ha1, _⟩
    cases hl : a'.length with
    | zero =>
      have hab : a' = [] := List.length_eq_zero.mp hl
      rw [heq, hab, List.nil_append]
      exact hX X (List.suffix_refl X)
    | succ n' =>
      rw [hl] at ha1
      rw [heq, ha1, List.replicate_succ, List.cons_append]
      exact tryTextCapture_cons_ne hx

/-- The tail pattern of COMPLETION fails at every position strictly inside
the bracket-free region of the C2 stdout past the key quote: no later
occurrence of a quoted text key followed by a colon and a quoted nonempty
value exists there. -/
theorem c2_tail_fails (m k j : Nat) :
    ∀ s', s' <:+ ('t' :: 'e' :: 'x' :: 't' :: '"' :: ':' :: '"' ::
        (c2Enc m k j ++ ['"'])) →
      tryTextCapture s' = none := by
  intro s' h
  rcases List.suffix_cons_iff.mp h with rfl | h
  · exact tryTextCapture_cons_ne (by decide)
  rcases List.suffix_cons_iff.mp h with rfl | h
  · exact tryTextCapture_cons_ne (by decide)
  rcases List.suffix_cons_iff.mp h with rfl | h
  · exact tryTextCapture_cons_ne (by decide)
  rcases List.suffix_cons_iff.mp h with rfl | h
  · exact tryTextCapture_cons_ne (by decide)
  rcases List.suffix_cons_iff.mp h with rfl | h
  · exact tryTextCapture_quote_ne (by decide)
  rcases List.suffix_cons_iff.mp h with rfl | h
  · exact tryTextCapture_cons_ne (by decide)
  rcases List.suffix_cons_iff.mp h with rfl | h
  · rw [c2Enc, List.replicate_succ]
    exact tryTextCapture_quote_ne (by decide)
  rw [c2Enc, List.append_assoc, List.cons_append, List.cons_append] at h
  refine tryTextCapture_after_replicate (by decide) ?_ s' h
  intro t ht
  rw [List.append_assoc] at ht
  rcases List.suffix_cons_iff.mp ht with rfl | ht
  · exact tryTextCapture_cons_ne (by decide)
  rcases List.suffix_cons_iff.mp ht with rfl | ht
  · exact tryTextCapture_cons_ne (by decide)
  refine tryTextCapture_after_replicate (by decide) ?_ t ht
  intro u hu
  rcases List.suffix_cons_iff.mp hu with rfl | hu
  · exact tryTextCapture_cons_ne (by decide)
  rcases List.suffix_cons_iff.mp hu with rfl | hu
  · cases j with
    | zero => exact tryTextCapture_quote_ne (by decide)
    | succ j' =>
      rw [List.replicate_succ]
      simp only [List.append_eq, List.cons_append]
      exact tryTextCapture_quote_ne (by decide)
  refine tryTextCapture_after_replicate (by decide) ?_ u hu
  intro v hv
  rcases List.suffix_cons_iff.mp hv with rfl | hv
  · decide
  · rw [List.suffix_nil.mp hv]
    rfl

theorem skipWs_cons_false {c : Char} {X : List Char} (h : jsSpace c = false) :
    skipWs (c :: X) = c :: X := by
  simp [skipWs, List.dropWhile_cons, h]

theorem matchColon_colon {X : List Char} (h : skipWs X = X) :
    matchColon (':' :: X) = some X := by
  rw [matchColon, skipWs_cons_false (by decide)]
  simp [matchLit, h]

theorem c2_capture (m k j : Nat) :
    tryTextCapture (litTextKey ++ ':' :: '"' :: (c2Enc m k j ++ ['"']))
      = some (c2Captured m k) := by
  have hqa : ∀ c ∈ List.replicate (m + 1) 'a', ((c != '"') : Bool) = true := by
    intro c hc
    rw [List.eq_of_mem_replicate hc]
    decide
  have hqb : ∀ c ∈ List.replicate (k + 1) 'b', ((c != '"') : Bool) = true := by
    intro c hc
    rw [List.eq_of_mem_replicate hc]
    decide
  have h1 : matchLit litTextKey (litTextKey ++ ':' :: '"' :: (c2Enc m k j ++ ['"']))
      = some (':' :: '"' :: (c2Enc m k j ++ ['"'])) := matchLit_self_append _ _
  have h2 : matchColon (':' :: '"' :: (c2Enc m k j ++ ['"']))
      = some ('"' :: (c2Enc m k j ++ ['"'])) :=
    matchColon_colon (skipWs_cons_false (by decide))
  have h3 : matchLit ['"'] ('"' :: (c2Enc m k j ++ ['"']))
      = some (c2Enc m k j ++ ['"']) := by
    simp [matchLit]
  have htake : (c2Enc m k j ++ ['"']).takeWhile (fun c => c != '"')
      = c2Captured m k := by
    rw [c2Enc, c2Captured, List.append_assoc, takeWhile_append_pos hqa]
    simp [List.cons_append, List.append_assoc, takeWhile_append_pos hqb,
      List.takeWhile_cons,
      show (('\\' : Char) != '"') = true from by decide,
      show (('"' : Char) != '"') = false from by decide]
  have hdrop : (c2Enc m k j ++ ['"']).dropWhile (fun c => c != '"')
      = '"' :: (List.replicate j 'c' ++ ['"']) := by
    rw [c2Enc, List.append_assoc, dropWhile_append_pos hqa]
    simp [List.cons_append, List.append_assoc, dropWhile_append_pos hqb,
      List.dropWhile_cons,
      show (('\\' : Char) != '"') = true from by decide,
      show (('"' : Char) != '"') = false from by decide]
  have hne : (c2Captured m k).isEmpty = false := by
    rw [c2Captured, List.replicate_succ, List.cons_append]
    rfl
  rw [tryTextCapture, h1]
  simp [h2, h3, htake, hdrop, hne]

theorem c2_tryCompletion (m k j : Nat) :
    tryCompletion (c2Stdout m k j) = some (c2Captured m k) := by
  have h1 : matchLit litSay (c2Stdout m k j)
      = some (':' :: (litCompletionResult ++ ',' ::
          (litTextKey ++ ':' :: '"' :: (c2Enc m k j ++ ['"'])))) := by
    rw [c2Stdout]
    exact matchLit_self_append _ _
  have h2 : matchColon (':' :: (litCompletionResult ++ ',' ::
        (litTextKey ++ ':' :: '"' :: (c2Enc m k j ++ ['"']))))
      = some (litCompletionResult ++ ',' ::
          (litTextKey ++ ':' :: '"' :: (c2Enc m k j ++ ['"']))) := by
    apply matchColon_colon
    rw [litCompletionResult]
    simp only [List.cons_append]
    exact skipWs_cons_false (by decide)
  have h3 : matchLit litCompletionResult (litCompletionResult ++ ',' ::
        (litTextKey ++ ':' :: '"' :: (c2Enc m k j ++ ['"'])))
      = some (',' :: (litTextKey ++ ':' :: '"' :: (c2Enc m k j ++ ['"']))) :=
    matchLit_self_append _ _
  have hT2 : greedy (fun c => c != rbrace) tryTextCapture
      ('t' :: 'e' :: 'x' :: 't' :: '"' :: ':' :: '"' :: (c2Enc m k j ++ ['"']))
      = none := greedy_eq_none (c2_tail_fails m k j)
  have hcap' : tryTextCapture ('"' :: 't' :: 'e' :: 'x' :: 't' :: '"' ::
      ':' :: '"' :: (c2Enc m k j ++ ['"'])) = some (c2Captured m k) := by
    have h := c2_capture m k j
    simpa only [litTextKey, List.cons_append, List.nil_append] using h
  have hg1 : greedy (fun c => c != rbrace) tryTextCapture
      ('"' :: 't' :: 'e' :: 'x' :: 't' :: '"' :: ':' :: '"' ::
        (c2Enc m k j ++ ['"'])) = some (c2Captured m k) := by
    rw [greedy_cons_pos (by decide), hT2]
    simp [orElse_none, hcap']
  have hg : greedy (fun c => c != rbrace) tryTextCapture
      (',' :: (litTextKey ++ ':' :: '"' :: (c2Enc m k j ++ ['"'])))
      = some (c2Captured m k) := by
    rw [greedy_cons_pos (by decide)]
    simp only [litTextKey, List.cons_append, List.nil_append]
    rw [hg1]
    simp [orElse_some]
  rw [tryCompletion, h1]
  simp [h2, h3, hg]

theorem c2_extract (m k j : Nat) :
    extractOutput (c2Stdout m k j) = c2Captured m k := by
  have hscan : scanFirst tryCompletion (c2Stdout m k j) = some (c2Captured m k) :=
    scanFirst_of_some (c2_tryCompletion m k j)
  have hmem : ∀ x ∈ c2Captured m k, x = 'a' ∨ x = '\\' ∨ x = 'b' := by
    intro x hx
    rw [c2Captured] at hx
    simp only [List.mem_append, List.mem_cons, List.mem_replicate,
      List.not_mem_nil, or_false] at hx
    tauto
  have hnN : ∀ x ∈ c2Captured m k, x ≠ 'n' := by
    intro x hx
    rcases hmem x hx with rfl | rfl | rfl <;> decide
  have hnQ : ∀ x ∈ c2Captured m k, x ≠ '"' := by
    intro x hx
    rcases hmem x hx with rfl | rfl | rfl <;> decide
  have hne : (c2Stdout m k j).isEmpty = false := by
    rw [c2Stdout, litSay]
    rfl
  rw [extractOutput]
  simp only [hscan]
  rw [unescapeNQ, replEsc_id hnN, replEsc_id hnQ]

/-- A concrete completion-result stdout whose text contains an escaped
backslash and an escaped quote (encoded text `ab\\cd\"ef`, original text
`ab\cd"ef`). -/
def c2ceStdout : List Char :=
  ("\"say\":\"completion_result\",\"text\":\"ab\\\\cd\\\"ef\"").toList

/-- C2 counterexample: on that stdout the extractor returns `ab\\cd\` — the
capture is truncated at the escaped quote and the escaped backslash stays
doubled — which is not the original text `ab\cd"ef` the claim requires. -/
theorem c2_counterexample :
    extractOutput c2ceStdout = ("ab\\\\cd\\").toList ∧
    extractOutput c2ceStdout ≠ ("ab\\cd\"ef").toList := by
  constructor
  · decide
  · decide

/-- C2 (amended): for a completion-result fragment whose text contains an
escaped quote (here the whole family with text a…a`\\`b…b`\"`c…c), the
extractor does not reproduce the original literal quote and backslash: the
capture group cannot cross a double-quote character, so the returned text is
truncated at the backslash of the escaped quote, and the escaped backslash
is left as two backslashes (the completion branch never unescapes
backslashes); the result always differs from the decoded original text. -/
theorem c2_amended_escape_truncation (m k j : Nat) :
    extractOutput (c2Stdout m k j) = c2Captured m k ∧
    c2Captured m k ≠ c2Original m k j := by
  refine ⟨c2_extract m k j, ?_⟩
  intro h
  rw [c2Captured, c2Original] at h
  have hd := congrArg (List.drop (List.replicate (m + 1) 'a').length) h
  rw [List.drop_left, List.drop_left] at hd
  rw [List.replicate_succ] at hd
  simp only [List.cons_append] at hd
  injection hd with h1 hd
  injection hd with h2 hd
  exact absurd h2 (by decide)

/-- Witness for C5 at concrete inputs: a valid prompt does not throw, and
the concrete failing execution is reported with success false. -/
theorem c5_witness :
    exceptIsOk (runClineTask envFail (("hi").toList) optsNone).1 = true ∧
    (⟨false, ("part").toList, some (("errs").toList)⟩ : ClineResult).success
      = false := by
  have h := c5_throws_only_on_invalid_input envFail (("hi").toList) optsNone
  exact ⟨h.1.mpr ⟨by decide, by decide⟩,
    h.2 (("boom").toList) (("part").toList) (("errs").toList)
      ⟨false, ("part").toList, some (("errs").toList)⟩ rfl (by decide)⟩

example : extractOutput ([]) = defaultOutput := by decide
example :
    extractOutput (("x\"say\":\"completion_result\",\"text\":\"hello there\"y").toList)
      = ("hello there").toList := by decide
example :
    extractOutput (("\"response\":\"a\\\"b\\\\c\"").toList)
      = ("a\"b\\c").toList := by decide
